import Mathlib

/-!
Shallow embedding of the realtime relay repository: the backend socket
relay (server.js) and the browser client audio/UI pipeline (src/App.js).

The backend receives WebSocket events and reacts without any mutable
session state; it is embedded as a pure step function from events to the
writes and closes it performs.  JSON.parse / JSON.stringify are embedded
by an executable JSON model; numbers are modelled as integers (fractional
and exponent literals, and \u string escapes, are outside the model, so
the embedded parser accepts a subset of the inputs JSON.parse accepts).
Buffer.toString with utf-8 is embedded as an executable UTF-8 decoder
that substitutes U+FFFD for malformed sequences.
-/

/-- JSON values as produced by JSON.parse.  Numbers are modelled as
integers. -/
inductive Json where
  | null : Json
  | bool : Bool → Json
  | num : Int → Json
  | str : String → Json
  | arr : List Json → Json
  | obj : List (String × Json) → Json
deriving Repr

/-- Skip the whitespace JSON.parse skips: space, tab, newline, carriage
return. -/
def skipWs : List Char → List Char
  | [] => []
  | c :: rest =>
    if c = ' ' || c = '\t' || c = '\n' || c = '\r' then skipWs rest else c :: rest

/-- Decimal digit test for the JSON number grammar. -/
def isJsonDigit (c : Char) : Bool := '0' ≤ c && c ≤ '9'

/-- Split a character list into its leading digits and the remainder. -/
def takeDigits : List Char → List Char × List Char
  | [] => ([], [])
  | c :: rest =>
    if isJsonDigit c then
      let p := takeDigits rest
      (c :: p.1, p.2)
    else ([], c :: rest)

/-- Numeric value of a digit list. -/
def digitsToNat (ds : List Char) : Nat :=
  ds.foldl (fun a c => a * 10 + (c.toNat - 48)) 0

/-- Single-character JSON string escapes accepted after a backslash. -/
def unescapeChar (c : Char) : Option Char :=
  if c = '"' then some '"'
  else if c = '\\' then some '\\'
  else if c = '/' then some '/'
  else if c = 'b' then some (Char.ofNat 8)
  else if c = 'f' then some (Char.ofNat 12)
  else if c = 'n' then some '\n'
  else if c = 'r' then some '\r'
  else if c = 't' then some '\t'
  else none

/-- Parse the body of a JSON string literal after the opening quote,
returning the characters and the input after the closing quote. -/
def parseStringChars (cs : List Char) : Option (List Char × List Char) :=
  match cs with
  | [] => none
  | '"' :: rest => some ([], rest)
  | '\\' :: e :: rest =>
    match unescapeChar e with
    | some c => (parseStringChars rest).map (fun p => (c :: p.1, p.2))
    | none => none
  | c :: rest =>
    if c.toNat < 0x20 then none
    else (parseStringChars rest).map (fun p => (c :: p.1, p.2))

/-- Record a field on a JS object: a duplicate key keeps the position of
the first occurrence and takes the value of the last one. -/
def setField : List (String × Json) → String → Json → List (String × Json)
  | [], k, v => [(k, v)]
  | (k0, v0) :: rest, k, v =>
    if k0 = k then (k0, v) :: rest else (k0, v0) :: setField rest k v

/-- Parse a JSON number (integer grammar: optional minus, no leading
zero, and no fraction or exponent in this model). -/
def parseNumberChars (cs : List Char) : Option (Json × List Char) :=
  let signed := match cs with
    | '-' :: rest => (true, rest)
    | _ => (false, cs)
  match takeDigits signed.2 with
  | ([], _) => none
  | (d :: ds, rest) =>
    if d = '0' && ds ≠ [] then none
    else
      match rest with
      | '.' :: _ => none
      | 'e' :: _ => none
      | 'E' :: _ => none
      | _ =>
        let n : Int := Int.ofNat (digitsToNat (d :: ds))
        some (Json.num (if signed.1 then -n else n), rest)

/-- Left brace character, written via its code point. -/
def lbrace : Char := Char.ofNat 123

/-- Right brace character, written via its code point. -/
def rbrace : Char := Char.ofNat 125

mutual

/-- Fuelled recursive-descent parser for a JSON value; mirrors the
grammar JSON.parse implements (minus the model restrictions noted at the
top of the file). -/
def parseValue : Nat → List Char → Option (Json × List Char)
  | 0, _ => none
  | fuel + 1, cs =>
    match skipWs cs with
    | [] => none
    | c :: rest =>
      if c = '"' then
        (parseStringChars rest).map (fun p => (Json.str (String.mk p.1), p.2))
      else if c = '[' then
        match skipWs rest with
        | ']' :: rest2 => some (Json.arr [], rest2)
        | rest2 =>
          (parseItems fuel rest2).map (fun p => (Json.arr p.1, p.2))
      else if c = lbrace then
        match skipWs rest with
        | d :: rest2 =>
          if d = rbrace then some (Json.obj [], rest2)
          else parseFields fuel [] (d :: rest2)
        | [] => none
      else if (c :: rest).take 4 = ['n', 'u', 'l', 'l'] then
        some (Json.null, (c :: rest).drop 4)
      else if (c :: rest).take 4 = ['t', 'r', 'u', 'e'] then
        some (Json.bool true, (c :: rest).drop 4)
      else if (c :: rest).take 5 = ['f', 'a', 'l', 's', 'e'] then
        some (Json.bool false, (c :: rest).drop 5)
      else if c = '-' || isJsonDigit c then
        parseNumberChars (c :: rest)
      else none

/-- Parse the comma-separated items of a non-empty JSON array, up to and
including the closing bracket. -/
def parseItems : Nat → List Char → Option (List Json × List Char)
  | 0, _ => none
  | fuel + 1, cs => do
    let (v, rest) ← parseValue fuel cs
    match skipWs rest with
    | ',' :: rest2 =>
      (parseItems fuel rest2).map (fun p => (v :: p.1, p.2))
    | ']' :: rest2 => some ([v], rest2)
    | _ => none

/-- Parse the members of a non-empty JSON object into an accumulated
field list, up to and including the closing brace. -/
def parseFields : Nat → List (String × Json) → List Char → Option (Json × List Char)
  | 0, _, _ => none
  | fuel + 1, acc, cs =>
    match skipWs cs with
    | '"' :: rest => do
      let (kcs, rest1) ← parseStringChars rest
      match skipWs rest1 with
      | ':' :: rest2 => do
        let (v, rest3) ← parseValue fuel rest2
        let acc2 := setField acc (String.mk kcs) v
        match skipWs rest3 with
        | ',' :: rest4 => parseFields fuel acc2 rest4
        | d :: rest4 =>
          if d = rbrace then some (Json.obj acc2, rest4) else none
        | [] => none
      | _ => none
    | _ => none

end

/-- JSON.parse on a whole string: a parsed value followed only by
trailing whitespace. -/
def parseJson (s : String) : Option Json :=
  match parseValue (2 * s.length + 2) s.data with
  | some (j, rest) => if skipWs rest = [] then some j else none
  | none => none

/-- Lower-case hexadecimal digit. -/
def hexDigit (n : Nat) : Char :=
  if n < 10 then Char.ofNat (48 + n) else Char.ofNat (87 + n)

/-- Escaping JSON.stringify applies to one character of a string. -/
def escapeJsonChar (c : Char) : String :=
  if c = '"' then "\\\""
  else if c = '\\' then "\\\\"
  else if c = '\n' then "\\n"
  else if c = '\r' then "\\r"
  else if c = '\t' then "\\t"
  else if c = Char.ofNat 8 then "\\b"
  else if c = Char.ofNat 12 then "\\f"
  else if c.toNat < 0x20 then
    String.mk ['\\', 'u', '0', '0', hexDigit (c.toNat / 16), hexDigit (c.toNat % 16)]
  else String.singleton c

/-- JSON.stringify of a string value. -/
def stringifyStr (s : String) : String :=
  "\"" ++ String.join (s.data.map escapeJsonChar) ++ "\""

mutual

/-- JSON.stringify (no indentation): the canonical serialisation the
backend writes after re-parsing a client event. -/
def stringify : Json → String
  | Json.null => "null"
  | Json.bool true => "true"
  | Json.bool false => "false"
  | Json.num n => toString n
  | Json.str s => stringifyStr s
  | Json.arr xs => "[" ++ stringifyList xs ++ "]"
  | Json.obj fs => "\x7b" ++ stringifyFields fs ++ "\x7d"

/-- Comma-separated serialisation of array elements. -/
def stringifyList : List Json → String
  | [] => ""
  | [x] => stringify x
  | x :: y :: rest => stringify x ++ "," ++ stringifyList (y :: rest)

/-- Comma-separated serialisation of object members. -/
def stringifyFields : List (String × Json) → String
  | [] => ""
  | [(k, v)] => stringifyStr k ++ ":" ++ stringify v
  | (k, v) :: f :: rest =>
    stringifyStr k ++ ":" ++ stringify v ++ "," ++ stringifyFields (f :: rest)

end

/-- Unicode replacement character U+FFFD. -/
def replacementChar : Char := Char.ofNat 0xFFFD

/-- Continuation byte test for UTF-8. -/
def isContByte (b : Nat) : Bool := 0x80 ≤ b && b < 0xC0

/-- UTF-8 decoding of a byte list, modelling Buffer.toString with the
utf-8 encoding: well-formed sequences decode to their scalar value;
malformed bytes are substituted by U+FFFD (with a simplified
resynchronisation on the error paths).  Each decoded character consumes
one unit of fuel, so fuel equal to the buffer length always suffices. -/
def utf8DecodeGo : Nat → List Nat → List Char
  | 0, _ => []
  | fuel + 1, bs =>
    match bs with
    | [] => []
    | b :: rest =>
      if b < 0x80 then Char.ofNat b :: utf8DecodeGo fuel rest
      else if b < 0xC2 then replacementChar :: utf8DecodeGo fuel rest
      else if b < 0xE0 then
        match rest with
        | b1 :: rest1 =>
          if isContByte b1 then
            Char.ofNat ((b - 0xC0) * 64 + (b1 - 0x80)) :: utf8DecodeGo fuel rest1
          else replacementChar :: utf8DecodeGo fuel rest
        | [] => [replacementChar]
      else if b < 0xF0 then
        match rest with
        | b1 :: b2 :: rest2 =>
          if isContByte b1 && isContByte b2 then
            let cp := (b - 0xE0) * 4096 + (b1 - 0x80) * 64 + (b2 - 0x80)
            if 0x800 ≤ cp && !(0xD800 ≤ cp && cp < 0xE000) then
              Char.ofNat cp :: utf8DecodeGo fuel rest2
            else replacementChar :: utf8DecodeGo fuel rest2
          else replacementChar :: utf8DecodeGo fuel rest
        | _ => [replacementChar]
      else if b < 0xF5 then
        match rest with
        | b1 :: b2 :: b3 :: rest3 =>
          if isContByte b1 && isContByte b2 && isContByte b3 then
            let cp := (b - 0xF0) * 262144 + (b1 - 0x80) * 4096 +
              (b2 - 0x80) * 64 + (b3 - 0x80)
            if 0x10000 ≤ cp && cp < 0x110000 then
              Char.ofNat cp :: utf8DecodeGo fuel rest3
            else replacementChar :: utf8DecodeGo fuel rest3
          else replacementChar :: utf8DecodeGo fuel rest
        | _ => [replacementChar]
      else replacementChar :: utf8DecodeGo fuel rest

/-- UTF-8 decoding of a byte buffer to a string, as the backend performs
on binary API messages via data.toString with utf-8. -/
def utf8DecodeBytes (bs : List Nat) : String := String.mk (utf8DecodeGo bs.length bs)

/-- UTF-8 encoding of one scalar value, on the underlying code point. -/
def utf8EncodeNat (n : Nat) : List Nat :=
  if n < 0x80 then [n]
  else if n < 0x800 then [0xC0 + n / 64, 0x80 + n % 64]
  else if n < 0x10000 then [0xE0 + n / 4096, 0x80 + (n / 64) % 64, 0x80 + n % 64]
  else [0xF0 + n / 262144, 0x80 + (n / 4096) % 64, 0x80 + (n / 64) % 64, 0x80 + n % 64]

/-- UTF-8 encoding of one scalar value. -/
def utf8EncodeChar (c : Char) : List Nat := utf8EncodeNat c.toNat

/-- UTF-8 encoding of a string. -/
def utf8EncodeString (s : String) : List Nat :=
  s.data.foldr (fun c acc => utf8EncodeChar c ++ acc) []

/-- Events a backend relay session reacts to: the handlers installed on
the client socket and on the API socket in server.js. -/
inductive RelayEvent where
  | apiSocketOpen : RelayEvent
  | apiMsgString : String → RelayEvent
  | apiMsgBuffer : List Nat → RelayEvent
  | apiMsgOther : RelayEvent
  | apiSocketError : String → RelayEvent
  | apiSocketClosed : RelayEvent
  | clientMsg : String → RelayEvent
  | clientSocketClosed : RelayEvent
  | clientSocketError : RelayEvent

/-- What one handler invocation performs: payloads written to each
socket and whether it calls close on each socket. -/
structure RelayOutput where
  toClient : List String
  toApi : List String
  closeClient : Bool
  closeApi : Bool
deriving DecidableEq, Repr

/-- Output of a handler that writes and closes nothing. -/
def emptyOutput : RelayOutput := ⟨[], [], false, false⟩

/-- The error event object both error paths of server.js construct. -/
def errorEventJson (msg details : String) : Json :=
  Json.obj
    [("type", Json.str "error"),
     ("error", Json.obj [("message", Json.str msg), ("details", Json.str details)])]

/-- Placeholder for e.message of the exception JSON.parse raises; the
actual text is engine specific and no claim depends on it. -/
def jsonParseErrorText : String := "Unexpected token"

/-- One step of the backend relay: the reaction of the server.js
handlers to a single socket event.  The handlers consult no session
state, so the step is a function of the event alone. -/
def relayStep : RelayEvent → RelayOutput
  | RelayEvent.apiSocketOpen => emptyOutput
  | RelayEvent.apiMsgString s => { emptyOutput with toClient := [s] }
  | RelayEvent.apiMsgBuffer bs => { emptyOutput with toClient := [utf8DecodeBytes bs] }
  | RelayEvent.apiMsgOther => emptyOutput
  | RelayEvent.apiSocketError details =>
    { emptyOutput with
      toClient := [stringify (errorEventJson "Failed to connect to OpenAI Realtime API." details)] }
  | RelayEvent.apiSocketClosed => { emptyOutput with closeClient := true }
  | RelayEvent.clientMsg m =>
    match parseJson m with
    | some event => { emptyOutput with toApi := [stringify event] }
    | none =>
      { emptyOutput with
        toClient := [stringify (errorEventJson "Invalid JSON format sent to server." jsonParseErrorText)] }
  | RelayEvent.clientSocketClosed => { emptyOutput with closeApi := true }
  | RelayEvent.clientSocketError => { emptyOutput with closeApi := true }

/-- Outputs of a whole session history, one output per event. -/
def relayTrace (events : List RelayEvent) : List RelayOutput :=
  events.map relayStep

/-! Helper lemmas: validity of Unicode scalar values and the UTF-8 round
trip used by the binary-forwarding claim. -/

/-- Every Char carries a Unicode scalar value: below the surrogate range
or above it and below 0x110000. -/
theorem char_toNat_valid (c : Char) :
    c.toNat < 0xD800 ∨ (0xE000 ≤ c.toNat ∧ c.toNat < 0x110000) := by
  have h := c.valid
  simp only [UInt32.isValidChar, Nat.isValidChar, UInt32.toNat] at h ⊢
  simp only [Char.toNat, UInt32.toNat]
  omega

/-- Decoding consumes the encoding of one scalar value in one step. -/
theorem utf8DecodeGo_encodeNat (n : Nat)
    (hvalid : n < 0xD800 ∨ (0xE000 ≤ n ∧ n < 0x110000)) (fuel : Nat) (rest : List Nat) :
    utf8DecodeGo (fuel + 1) (utf8EncodeNat n ++ rest) = Char.ofNat n :: utf8DecodeGo fuel rest := by
  by_cases h1 : n < 0x80
  · rw [utf8EncodeNat, if_pos h1, List.cons_append, List.nil_append]
    simp only [utf8DecodeGo]
    rw [if_pos h1]
  · by_cases h2 : n < 0x800
    · rw [utf8EncodeNat, if_neg h1, if_pos h2, List.cons_append, List.cons_append,
        List.nil_append]
      simp only [utf8DecodeGo]
      rw [if_neg (by omega), if_neg (by omega), if_pos (by omega)]
      rw [if_pos (by simp only [isContByte, Bool.and_eq_true, decide_eq_true_eq]; omega)]
      have hcp : (0xC0 + n / 64 - 0xC0) * 64 + (0x80 + n % 64 - 0x80) = n := by omega
      rw [hcp]
    · by_cases h3 : n < 0x10000
      · rw [utf8EncodeNat, if_neg h1, if_neg h2, if_pos h3, List.cons_append, List.cons_append,
          List.cons_append, List.nil_append]
        simp only [utf8DecodeGo]
        rw [if_neg (by omega), if_neg (by omega), if_neg (by omega), if_pos (by omega)]
        rw [if_pos (by simp only [isContByte, Bool.and_eq_true, decide_eq_true_eq]; omega)]
        have hcp : (0xE0 + n / 4096 - 0xE0) * 4096 + (0x80 + n / 64 % 64 - 0x80) * 64 +
            (0x80 + n % 64 - 0x80) = n := by omega
        rw [hcp]
        rw [if_pos (by
          simp only [Bool.and_eq_true, decide_eq_true_eq, Bool.not_eq_true',
            Bool.and_eq_false_iff, decide_eq_false_iff_not]
          constructor
          · omega
          · omega)]
      · rw [utf8EncodeNat, if_neg h1, if_neg h2, if_neg h3, List.cons_append, List.cons_append,
          List.cons_append, List.cons_append, List.nil_append]
        simp only [utf8DecodeGo]
        rw [if_neg (by omega), if_neg (by omega), if_neg (by omega), if_neg (by omega),
          if_pos (by omega)]
        rw [if_pos (by simp only [isContByte, Bool.and_eq_true, decide_eq_true_eq]; omega)]
        have hcp : (0xF0 + n / 262144 - 0xF0) * 262144 + (0x80 + n / 4096 % 64 - 0x80) * 4096 +
            (0x80 + n / 64 % 64 - 0x80) * 64 + (0x80 + n % 64 - 0x80) = n := by omega
        rw [hcp]
        rw [if_pos (by simp only [Bool.and_eq_true, decide_eq_true_eq]; omega)]

/-- Every character encodes to at least one byte. -/
theorem utf8EncodeChar_length_pos (c : Char) : 1 ≤ (utf8EncodeChar c).length := by
  rw [utf8EncodeChar, utf8EncodeNat]
  split
  · simp
  · split
    · simp
    · split <;> simp

/-- An encoded character list is at least as long as the character list. -/
theorem utf8EncodeString_length_ge (cs : List Char) :
    cs.length ≤ (cs.foldr (fun c acc => utf8EncodeChar c ++ acc) []).length := by
  induction cs with
  | nil => simp
  | cons c cs ih =>
    simp only [List.foldr_cons, List.length_append, List.length_cons]
    have := utf8EncodeChar_length_pos c
    omega

/-- Decoding an encoded character list with enough fuel recovers it. -/
theorem utf8DecodeGo_encodeList (cs : List Char) (fuel : Nat) (hf : cs.length ≤ fuel) :
    utf8DecodeGo fuel (cs.foldr (fun c acc => utf8EncodeChar c ++ acc) []) = cs := by
  induction cs generalizing fuel with
  | nil =>
    cases fuel <;> simp [utf8DecodeGo]
  | cons c cs ih =>
    cases fuel with
    | zero => simp at hf
    | succ f =>
      simp only [List.foldr_cons]
      rw [utf8EncodeChar, utf8DecodeGo_encodeNat c.toNat (char_toNat_valid c) f]
      rw [Char.ofNat_toNat]
      rw [ih f (by simp only [List.length_cons] at hf; omega)]

/-- The decoder inverts the encoder on every string. -/
theorem utf8_roundtrip (s : String) : utf8DecodeBytes (utf8EncodeString s) = s := by
  rw [utf8DecodeBytes, utf8EncodeString]
  rw [utf8DecodeGo_encodeList s.data _ (utf8EncodeString_length_ge s.data)]

/-- C1: the claim that a valid-JSON client message is forwarded to the
API socket verbatim fails: the backend re-serialises the parsed event,
so the valid JSON payload "[1, 2]" is written as "[1,2]", not as the
payload that was received. -/
theorem C1_counterexample :
    parseJson "[1, 2]" = some (Json.arr [Json.num 1, Json.num 2]) ∧
    (relayStep (RelayEvent.clientMsg "[1, 2]")).toApi = ["[1,2]"] ∧
    ("[1,2]" : String) ≠ "[1, 2]" := by
  refine ⟨rfl, rfl, by decide⟩

/-- C1 (amended): for every client text message that is valid JSON, the
backend writes to the API socket exactly the canonical re-serialisation
of the parsed event - the same JSON value, but not byte-for-byte the
received payload - and writes nothing else and closes nothing. -/
theorem C1_forward_reserialised (m : String) (j : Json) (h : parseJson m = some j) :
    relayStep (RelayEvent.clientMsg m) = ⟨[], [stringify j], false, false⟩ := by
  simp [relayStep, h, emptyOutput]

/-- Witness for C1 (amended) at a concrete message with whitespace. -/
theorem C1_forward_reserialised_witness :
    relayStep (RelayEvent.clientMsg " [1, 2] ") = ⟨[], ["[1,2]"], false, false⟩ :=
  (C1_forward_reserialised " [1, 2] " (Json.arr [Json.num 1, Json.num 2]) rfl).trans (by decide)

/-- C2: the claim that every closure or error event on the API socket
closes the client socket fails: on an API socket error the handler
closes neither socket (it only sends an error event to the client). -/
theorem C2_counterexample :
    (relayStep (RelayEvent.apiSocketError "boom")).closeClient = false ∧
    (relayStep (RelayEvent.apiSocketError "boom")).closeApi = false :=
  ⟨rfl, rfl⟩

/-- C2 (amended): a closure or error event on the client socket closes
the API socket, and a closure of the API socket closes the client
socket; an error on the API socket closes neither socket and instead
surfaces an error event to the client. -/
theorem C2_close_propagation :
    (relayStep RelayEvent.clientSocketClosed).closeApi = true ∧
    (relayStep RelayEvent.clientSocketError).closeApi = true ∧
    (relayStep RelayEvent.apiSocketClosed).closeClient = true ∧
    ∀ d, relayStep (RelayEvent.apiSocketError d) =
      ⟨[stringify (errorEventJson "Failed to connect to OpenAI Realtime API." d)],
        [], false, false⟩ :=
  ⟨rfl, rfl, rfl, fun _ => rfl⟩

/-- C3: both error paths of the backend surface a single kind of event
to the client: the serialisation of an object whose type field is
"error" and whose error field carries a message; nothing is written to
the API socket and no close or retry happens on either path. -/
theorem C3_single_error_shape :
    (∀ m, parseJson m = none →
      relayStep (RelayEvent.clientMsg m) =
        ⟨[stringify (errorEventJson "Invalid JSON format sent to server." jsonParseErrorText)],
          [], false, false⟩) ∧
    (∀ d, relayStep (RelayEvent.apiSocketError d) =
      ⟨[stringify (errorEventJson "Failed to connect to OpenAI Realtime API." d)],
        [], false, false⟩) ∧
    (∀ msg details, errorEventJson msg details =
      Json.obj [("type", Json.str "error"),
        ("error", Json.obj [("message", Json.str msg), ("details", Json.str details)])]) := by
  refine ⟨fun m h => ?_, fun _ => rfl, fun _ _ => rfl⟩
  simp [relayStep, h, emptyOutput]

/-- Witness for C3 at a concrete non-JSON client message. -/
theorem C3_single_error_shape_witness :
    relayStep (RelayEvent.clientMsg "nope") =
      ⟨["\x7b\"type\":\"error\",\"error\":\x7b\"message\":\"Invalid JSON format sent to server.\",\"details\":\"Unexpected token\"\x7d\x7d"],
        [], false, false⟩ :=
  (C3_single_error_shape.1 "nope" rfl).trans (by decide)

/-- C4: the backend holds no state across messages: the output a client
message produces (on both sockets) is the same after any two prior event
histories. -/
theorem C4_history_independent (h1 h2 : List RelayEvent) (m : String) :
    (relayTrace (h1 ++ [RelayEvent.clientMsg m])).getLast? =
      (relayTrace (h2 ++ [RelayEvent.clientMsg m])).getLast? := by
  simp [relayTrace, List.getLast?_concat]

/-- C5: an API text message is written to the client unchanged, an API
binary message is written as its UTF-8 decoding (and that decoding
inverts UTF-8 encoding), and nothing else is written or closed. -/
theorem C5_api_forwarding :
    (∀ s, relayStep (RelayEvent.apiMsgString s) = ⟨[s], [], false, false⟩) ∧
    (∀ bs, relayStep (RelayEvent.apiMsgBuffer bs) = ⟨[utf8DecodeBytes bs], [], false, false⟩) ∧
    (∀ s, utf8DecodeBytes (utf8EncodeString s) = s) :=
  ⟨fun _ => rfl, fun _ => rfl, utf8_roundtrip⟩

/-! Audio pipeline of src/App.js: downmix (averageChannels), quantise
(float32ToPCM16) and base64-encode (arrayBufferToBase64).  Samples are
numbers; they are embedded as rationals, on which the clamp, scale and
truncation steps are exact. -/

/-- Clamp of one sample: Math.max(-1, Math.min(1, x)). -/
def clampSample (x : ℚ) : ℚ := max (-1) (min 1 x)

/-- Scale of one clamped sample: s * 0x8000 when negative, s * 0x7FFF
otherwise. -/
def scaleSample (s : ℚ) : ℚ := if s < 0 then s * 32768 else s * 32767

/-- Truncation toward zero, the number-to-integer conversion
DataView.setInt16 applies. -/
def truncToZero (q : ℚ) : Int := if q < 0 then Int.ceil q else Int.floor q

/-- The 16-bit integer value stored for one input sample. -/
def pcm16Sample (x : ℚ) : Int := truncToZero (scaleSample (clampSample x))

/-- Little-endian two-byte storage of a 16-bit integer value in two's
complement, as view.setInt16 with littleEndian true performs. -/
def int16BytesLE (v : Int) : List Nat :=
  let u := (v % 65536).toNat
  [u % 256, u / 256]

/-- Reading two little-endian bytes back as a signed 16-bit integer. -/
def int16OfBytesLE (lo hi : Nat) : Int :=
  let u := lo + 256 * hi
  if u < 32768 then (u : Int) else (u : Int) - 65536

/-- float32ToPCM16 of src/App.js: clamp, scale and store each sample as
two little-endian bytes, in input order. -/
def float32ToPCM16 (float32Array : List ℚ) : List Nat :=
  float32Array.foldr (fun x acc => int16BytesLE (pcm16Sample x) ++ acc) []

/-- averageChannels of src/App.js: pointwise average of two channels
over the shorter length. -/
def averageChannels (channel1 channel2 : List ℚ) : List ℚ :=
  List.zipWith (fun a b => (a + b) / 2) channel1 channel2

/-- Channel selection of convertBlobToPCM16Mono24kHz: average channels 0
and 1 when there is more than one channel, otherwise channel 0 unchanged
(decoded audio always has at least one channel; the empty case is
vacuous). -/
def downmixChannels (channels : List (List ℚ)) : List ℚ :=
  match channels with
  | [] => []
  | [c0] => c0
  | c0 :: c1 :: _ => averageChannels c0 c1

/-- A clamped sample lies in [-1, 1]. -/
theorem clampSample_mem (x : ℚ) : -1 ≤ clampSample x ∧ clampSample x ≤ 1 := by
  constructor
  · exact le_max_left _ _
  · exact max_le (by norm_num) (min_le_left _ _)

/-- The stored sample value lies in the signed 16-bit range. -/
theorem pcm16Sample_range (x : ℚ) : -32768 ≤ pcm16Sample x ∧ pcm16Sample x ≤ 32767 := by
  obtain ⟨hl, hr⟩ := clampSample_mem x
  set s := clampSample x with hs
  rw [pcm16Sample, ← hs, scaleSample, truncToZero]
  by_cases hneg : s < 0
  · rw [if_pos hneg]
    have hq1 : (-32768 : ℚ) ≤ s * 32768 := by nlinarith
    rw [if_pos (by nlinarith : s * 32768 < 0)]
    constructor
    · have : ((-32768 : Int) : ℚ) ≤ ((Int.ceil (s * 32768) : Int) : ℚ) := by
        push_cast
        linarith [Int.le_ceil (s * 32768)]
      exact_mod_cast this
    · have h0 : Int.ceil (s * 32768) ≤ 0 := by
        rw [Int.ceil_le]
        push_cast
        linarith
      omega
  · rw [if_neg hneg]
    have hge : 0 ≤ s := le_of_not_lt hneg
    have hq1 : (0 : ℚ) ≤ s * 32767 := by nlinarith
    have hq2 : s * 32767 ≤ 32767 := by nlinarith
    rw [if_neg (by linarith : ¬ s * 32767 < 0)]
    constructor
    · have h0 : (0 : Int) ≤ Int.floor (s * 32767) := by
        rw [Int.le_floor]
        push_cast
        linarith
      omega
    · have : ((Int.floor (s * 32767) : Int) : ℚ) ≤ 32767 :=
        le_trans (Int.floor_le (s * 32767)) hq2
      exact_mod_cast this

/-- The two stored bytes are bytes and decode back to the stored signed
value when it is in range. -/
theorem int16BytesLE_faithful (v : Int) (h1 : -32768 ≤ v) (h2 : v ≤ 32767) :
    ∃ lo hi, int16BytesLE v = [lo, hi] ∧ lo < 256 ∧ hi < 256 ∧ int16OfBytesLE lo hi = v := by
  refine ⟨(v % 65536).toNat % 256, (v % 65536).toNat / 256, rfl, by omega, by omega, ?_⟩
  rw [int16OfBytesLE]
  split <;> omega

/-- Quantising a cons prepends the two bytes of its head sample. -/
theorem float32ToPCM16_cons (x : ℚ) (xs : List ℚ) :
    float32ToPCM16 (x :: xs) = int16BytesLE (pcm16Sample x) ++ float32ToPCM16 xs := rfl

/-- Output byte length of the quantiser is twice the sample count. -/
theorem float32ToPCM16_length (samples : List ℚ) :
    (float32ToPCM16 samples).length = 2 * samples.length := by
  induction samples with
  | nil => rfl
  | cons x xs ih =>
    rw [float32ToPCM16_cons, List.length_append, ih]
    have hlen : (int16BytesLE (pcm16Sample x)).length = 2 := rfl
    rw [hlen, List.length_cons]
    omega

/-- C6: float32ToPCM16 yields exactly twice as many bytes as samples;
every sample is clamped to [-1, 1], scaled by 0x8000 when negative and
0x7FFF otherwise, truncated, and the resulting value lies in
[-32768, 32767] and is stored as two little-endian bytes that read back
as that signed 16-bit value. -/
theorem C6_quantisation (samples : List ℚ) :
    (float32ToPCM16 samples).length = 2 * samples.length ∧
    (∀ x ∈ samples, -32768 ≤ pcm16Sample x ∧ pcm16Sample x ≤ 32767) ∧
    (∀ x ∈ samples, ∃ lo hi, int16BytesLE (pcm16Sample x) = [lo, hi] ∧ lo < 256 ∧
      hi < 256 ∧ int16OfBytesLE lo hi = pcm16Sample x) := by
  refine ⟨float32ToPCM16_length samples, fun x _ => pcm16Sample_range x, fun x _ => ?_⟩
  obtain ⟨h1, h2⟩ := pcm16Sample_range x
  exact int16BytesLE_faithful _ h1 h2

/-- Witness for C6 at a concrete sample list containing an out-of-range
sample. -/
theorem C6_quantisation_witness :
    (float32ToPCM16 [(1 : ℚ)/2, -2, 1]).length = 6 ∧
    -32768 ≤ pcm16Sample (-2) ∧ pcm16Sample (-2) ≤ 32767 := by
  have h := C6_quantisation [(1 : ℚ)/2, -2, 1]
  exact ⟨h.1.trans (by norm_num), h.2.1 (-2) (by norm_num)⟩

/-- C7: averageChannels is the pointwise average of its two channels
over the minimum of the two lengths, and channel selection uses the
average for multi-channel audio and channel 0 unchanged for mono. -/
theorem C7_downmix_average :
    (∀ c1 c2 : List ℚ, (averageChannels c1 c2).length = min c1.length c2.length) ∧
    (∀ (c1 c2 : List ℚ) (i : Nat) (h1 : i < c1.length) (h2 : i < c2.length),
      (averageChannels c1 c2).get ⟨i, by simp [averageChannels]; omega⟩ =
        (c1.get ⟨i, h1⟩ + c2.get ⟨i, h2⟩) / 2) ∧
    (∀ c0 : List ℚ, downmixChannels [c0] = c0) ∧
    (∀ (c0 c1 : List ℚ) (rest : List (List ℚ)),
      downmixChannels (c0 :: c1 :: rest) = averageChannels c0 c1) := by
  refine ⟨fun c1 c2 => ?_, fun c1 c2 i h1 h2 => ?_, fun c0 => rfl, fun c0 c1 rest => rfl⟩
  · simp [averageChannels]
  · simp [averageChannels, List.get_eq_getElem, List.getElem_zipWith]

/-- Witness for C7 at concrete channels of unequal length. -/
theorem C7_downmix_average_witness :
    (averageChannels [1, 3] [2]).length = 1 ∧
    (averageChannels [1, 3] [2]).get ⟨0, by simp [averageChannels]⟩ = 3 / 2 := by
  constructor
  · exact C7_downmix_average.1 [1, 3] [2]
  · have h := C7_downmix_average.2.1 [1, 3] [2] 0 (by norm_num) (by norm_num)
    rw [h]
    norm_num

/-! Base64 encoding (arrayBufferToBase64, which applies btoa to the byte
string) and the standard base64 decoding that reverses it. -/

/-- Base64 alphabet used by btoa. -/
def b64Alphabet : List Char :=
  "ABCDEFGHIJKLMNOPQRSTUVWXYZabcdefghijklmnopqrstuvwxyz0123456789+/".data

/-- Character for a six-bit group. -/
def b64Char (n : Nat) : Char := b64Alphabet.getD n 'A'

/-- Six-bit value of an alphabet character. -/
def b64Index (c : Char) : Option Nat := List.indexOf? c b64Alphabet

/-- Base64 encoding of a byte list, three bytes to four characters with
trailing padding, as btoa produces. -/
def encodeB64 : List Nat → List Char
  | [] => []
  | [b0] => [b64Char (b0 / 4), b64Char (b0 % 4 * 16), '=', '=']
  | [b0, b1] => [b64Char (b0 / 4), b64Char (b0 % 4 * 16 + b1 / 16), b64Char (b1 % 16 * 4), '=']
  | b0 :: b1 :: b2 :: rest =>
    b64Char (b0 / 4) :: b64Char (b0 % 4 * 16 + b1 / 16) :: b64Char (b1 % 16 * 4 + b2 / 64) ::
      b64Char (b2 % 64) :: encodeB64 rest
termination_by bs => bs.length
decreasing_by all_goals simp only [List.length_cons]; omega

/-- arrayBufferToBase64 of src/App.js: build the binary character string
from the bytes and base64-encode it. -/
def arrayBufferToBase64 (buffer : List Nat) : String := String.mk (encodeB64 buffer)

/-- Standard base64 decoding, four characters to three bytes with
padding handling; one unit of fuel per four-character group. -/
def decodeB64Go : Nat → List Char → Option (List Nat)
  | 0, cs => match cs with | [] => some [] | _ => none
  | fuel + 1, cs =>
    match cs with
    | [] => some []
    | c0 :: c1 :: c2 :: c3 :: rest =>
      match b64Index c0, b64Index c1 with
      | some s0, some s1 =>
        if c2 = '=' then
          if c3 = '=' ∧ rest = [] ∧ s1 % 16 = 0 then some [s0 * 4 + s1 / 16] else none
        else
          match b64Index c2 with
          | some s2 =>
            if c3 = '=' then
              if rest = [] ∧ s2 % 4 = 0 then some [s0 * 4 + s1 / 16, s1 % 16 * 16 + s2 / 4]
              else none
            else
              match b64Index c3 with
              | some s3 =>
                (decodeB64Go fuel rest).map
                  (fun bs => (s0 * 4 + s1 / 16) :: (s1 % 16 * 16 + s2 / 4) ::
                    (s2 % 4 * 64 + s3) :: bs)
              | none => none
          | none => none
      | _, _ => none
    | _ => none

/-- Base64 decoding of a character list. -/
def decodeB64 (cs : List Char) : Option (List Nat) := decodeB64Go cs.length cs

/-- The alphabet table inverts itself on all 64 six-bit values. -/
theorem b64Index_b64Char : ∀ n, n < 64 → b64Index (b64Char n) = some n := by decide

/-- No alphabet character is the padding character. -/
theorem b64Char_ne_eq : ∀ n, n < 64 → b64Char n ≠ '=' := by decide

/-- Decoding inverts encoding, given enough fuel. -/
theorem decodeB64Go_encodeB64 (fuel : Nat) (bs : List Nat)
    (hb : ∀ b ∈ bs, b < 256) (hf : bs.length ≤ fuel) :
    decodeB64Go fuel (encodeB64 bs) = some bs := by
  induction fuel generalizing bs with
  | zero =>
    have : bs = [] := List.eq_nil_of_length_eq_zero (by omega)
    subst this
    simp [encodeB64, decodeB64Go]
  | succ f ih =>
    match bs with
    | [] => simp [encodeB64, decodeB64Go]
    | [b0] =>
      have h0 : b0 < 256 := hb b0 (by simp)
      rw [encodeB64]
      simp only [decodeB64Go]
      rw [b64Index_b64Char _ (by omega), b64Index_b64Char _ (by omega)]
      simp only [if_true, true_and]
      rw [if_pos (by omega : b0 % 4 * 16 % 16 = 0)]
      congr 1
      congr 1
      omega
    | [b0, b1] =>
      have h0 : b0 < 256 := hb b0 (by simp)
      have h1 : b1 < 256 := hb b1 (by simp)
      rw [encodeB64]
      simp only [decodeB64Go]
      rw [b64Index_b64Char _ (by omega), b64Index_b64Char _ (by omega)]
      try simp only []
      rw [if_neg (b64Char_ne_eq _ (by omega))]
      rw [b64Index_b64Char _ (by omega)]
      simp only [if_true, true_and]
      rw [if_pos (by omega : b1 % 16 * 4 % 4 = 0)]
      congr 1
      congr 1
      · omega
      · congr 1
        omega
    | b0 :: b1 :: b2 :: rest =>
      have h0 : b0 < 256 := hb b0 (by simp)
      have h1 : b1 < 256 := hb b1 (by simp)
      have h2 : b2 < 256 := hb b2 (by simp)
      have hrest : ∀ b ∈ rest, b < 256 := fun b hmem => hb b (by simp [hmem])
      rw [encodeB64]
      simp only [decodeB64Go]
      rw [b64Index_b64Char _ (by omega), b64Index_b64Char _ (by omega)]
      try simp only []
      rw [if_neg (b64Char_ne_eq _ (by omega))]
      rw [b64Index_b64Char _ (by omega)]
      try simp only []
      rw [if_neg (b64Char_ne_eq _ (by omega))]
      rw [b64Index_b64Char _ (by omega)]
      try simp only []
      rw [ih rest hrest (by simp only [List.length_cons] at hf; omega)]
      simp only [Option.map_some']
      congr 1
      congr 1
      · omega
      · congr 1
        · omega
        · congr 1
          omega

/-- The encoding is at least as long as the input. -/
theorem encodeB64_length_aux :
    ∀ (n : Nat) (bs : List Nat), bs.length ≤ n → bs.length ≤ (encodeB64 bs).length := by
  intro n
  induction n with
  | zero =>
    intro bs h
    have : bs = [] := List.eq_nil_of_length_eq_zero (by omega)
    subst this
    simp
  | succ m ih =>
    intro bs h
    match bs with
    | [] => simp
    | [b0] => rw [encodeB64]; simp
    | [b0, b1] => rw [encodeB64]; simp
    | b0 :: b1 :: b2 :: rest =>
      rw [encodeB64]
      simp only [List.length_cons] at h ⊢
      have := ih rest (by omega)
      omega

/-- C8: base64-decoding the string arrayBufferToBase64 produces recovers
exactly the original byte sequence. -/
theorem C8_base64_roundtrip (bytes : List Nat) (hb : ∀ b ∈ bytes, b < 256) :
    decodeB64 (arrayBufferToBase64 bytes).data = some bytes := by
  have hdata : (arrayBufferToBase64 bytes).data = encodeB64 bytes := rfl
  rw [decodeB64, hdata]
  exact decodeB64Go_encodeB64 _ bytes hb (encodeB64_length_aux bytes.length bytes le_rfl)

/-- Witness for C8 at a concrete byte buffer whose length is not a
multiple of three. -/
theorem C8_base64_roundtrip_witness :
    decodeB64 (arrayBufferToBase64 [0, 255, 16, 3]).data = some [0, 255, 16, 3] :=
  C8_base64_roundtrip [0, 255, 16, 3] (by decide)

/-! Client UI message-list state machine of src/App.js: the server-event
dispatch of processServerMessage with its handlers, and the local UI
events that append to the list. -/

/-- One entry of the client message list rendered by the UI.  The text
and audio fields model the JS properties; none models undefined. -/
structure Msg where
  role : String
  text : Option String
  audio : Option String
deriving DecidableEq, Repr

/-- Client UI state relevant to the claims: the messages list and the
audio delta buffer audioBufferRef. -/
structure UiState where
  messages : List Msg
  audioBuffer : List String
deriving DecidableEq, Repr

/-- Property lookup on an object field list (fields are unique after
parsing, see setField). -/
def lookupField : List (String × Json) → String → Option Json
  | [], _ => none
  | (k0, v) :: rest, k => if k0 = k then some v else lookupField rest k

/-- Property access on a parsed JSON value; none models undefined (also
for access on a non-object). -/
def getField : Json → String → Option Json
  | Json.obj fs, k => lookupField fs k
  | _, _ => none

/-- JS string coercion of a JSON value, as template literals apply;
the array and object cases are approximations (no claim depends on
them). -/
def jsToDisplayString : Json → String
  | Json.str s => s
  | Json.num n => toString n
  | Json.bool true => "true"
  | Json.bool false => "false"
  | Json.null => "null"
  | Json.arr _ => ""
  | Json.obj _ => "[object Object]"

/-- JS truthiness of a possibly-undefined string property. -/
def jsTruthyOptStr : Option String → Bool
  | some s => s ≠ ""
  | none => false

/-- Message-list update of handleResponseAudioDelta: overwrite the audio
of the last message when it is an assistant message with truthy audio,
otherwise push a new assistant audio message. -/
def pushOrUpdateLast (msgs : List Msg) (combined : String) : List Msg :=
  match msgs.getLast? with
  | some last =>
    if last.role = "assistant" ∧ jsTruthyOptStr last.audio = true then
      msgs.dropLast ++ [{ last with audio := some combined }]
    else msgs ++ [⟨"assistant", none, some combined⟩]
  | none => msgs ++ [⟨"assistant", none, some combined⟩]

/-- handleResponseAudioDelta of src/App.js: a truthy audio_delta is
pushed onto the buffer and the joined buffer is stored in the last
assistant message.  A non-string truthy audio_delta is outside the
model (the protocol sends base64 strings). -/
def handleResponseAudioDelta (s : UiState) (data : Json) : UiState :=
  match getField data "audio_delta" with
  | some (Json.str d) =>
    if d ≠ "" then
      let buffer := s.audioBuffer ++ [d]
      let combined := String.join buffer
      ⟨pushOrUpdateLast s.messages combined, buffer⟩
    else s
  | _ => s

/-- handleResponseAudioDone of src/App.js: append a system message and
clear the delta buffer. -/
def handleResponseAudioDone (s : UiState) (_data : Json) : UiState :=
  ⟨s.messages ++ [⟨"system", some "Audio response completed.", none⟩], []⟩

/-- handleResponseAudioTranscriptDone of src/App.js: append an assistant
message whose text is the (possibly undefined) transcript field. -/
def handleResponseAudioTranscriptDone (s : UiState) (data : Json) : UiState :=
  { s with messages :=
      s.messages ++ [⟨"assistant", (getField data "transcript").map jsToDisplayString, none⟩] }

/-- handleErrorEvent of src/App.js: append a system message carrying
error.message.  An undefined error argument throws before any append
and the exception is caught by processServerMessage, leaving the state
unchanged. -/
def handleErrorEvent (s : UiState) (err : Option Json) : UiState :=
  match err with
  | none => s
  | some e =>
    { s with messages := s.messages ++
        [⟨"system",
          some ("Error: " ++ (match getField e "message" with
            | some v => jsToDisplayString v
            | none => "undefined")), none⟩] }

/-- Messages appended for one content item of a created conversation
item: text items and audio items yield assistant entries. -/
def contentItemMsgs (ci : Json) : List Msg :=
  match getField ci "type" with
  | some (Json.str t) =>
    if t = "text" then [⟨"assistant", (getField ci "text").map jsToDisplayString, none⟩]
    else if t = "audio" then [⟨"assistant", none, (getField ci "audio").map jsToDisplayString⟩]
    else []
  | _ => []

/-- handleConversationItemCreated of src/App.js: for an assistant
message item, append one entry per text or audio content item.  A
missing or non-array content field throws before any append and is
caught upstream. -/
def handleConversationItemCreated (s : UiState) (item : Option Json) : UiState :=
  match item with
  | none => s
  | some it =>
    match getField it "type", getField it "role" with
    | some (Json.str "message"), some (Json.str "assistant") =>
      match getField it "content" with
      | some (Json.arr content) =>
        { s with messages := s.messages ++ content.foldr (fun ci acc => contentItemMsgs ci ++ acc) [] }
      | _ => s
    | _, _ => s

/-- processServerMessage of src/App.js: parse the server payload and
dispatch on its type field; parse failures are caught and ignored. -/
def processServerMessage (s : UiState) (dataStr : String) : UiState :=
  match parseJson dataStr with
  | none => s
  | some data =>
    match getField data "type" with
    | some (Json.str t) =>
      if t = "conversation.item.created" then handleConversationItemCreated s (getField data "item")
      else if t = "response.audio.delta" then handleResponseAudioDelta s data
      else if t = "response.audio.done" then handleResponseAudioDone s data
      else if t = "response.audio_transcript.done" then handleResponseAudioTranscriptDone s data
      else if t = "error" then handleErrorEvent s (getField data "error")
      else s
    | _ => s

/-- The remaining client-side events that append to the message list:
socket lifecycle, recording lifecycle and the processAudio outcomes. -/
inductive LocalUiEvent where
  | wsOpened : LocalUiEvent
  | wsErrored : LocalUiEvent
  | wsClosed : LocalUiEvent
  | recordingStarted : LocalUiEvent
  | recordingStopped : LocalUiEvent
  | micDenied : LocalUiEvent
  | audioProcessed : Option String → Bool → LocalUiEvent

/-- Messages the handler of each local event appends, as written in the
corresponding setMessages calls of src/App.js. -/
def localEventMsgs : LocalUiEvent → List Msg
  | LocalUiEvent.wsOpened => [⟨"system", some "Connected to assistant.", none⟩]
  | LocalUiEvent.wsErrored => [⟨"system", some "WebSocket error occurred.", none⟩]
  | LocalUiEvent.wsClosed => [⟨"system", some "Disconnected from assistant.", none⟩]
  | LocalUiEvent.recordingStarted => [⟨"system", some "Recording started...", none⟩]
  | LocalUiEvent.recordingStopped => [⟨"system", some "Processing audio...", none⟩]
  | LocalUiEvent.micDenied => [⟨"system", some "Microphone access denied or unavailable.", none⟩]
  | LocalUiEvent.audioProcessed none _ => [⟨"system", some "Failed to process audio.", none⟩]
  | LocalUiEvent.audioProcessed (some b64) true =>
    [⟨"user", none, some b64⟩, ⟨"system", some "Audio sent to assistant for processing.", none⟩]
  | LocalUiEvent.audioProcessed (some _) false =>
    [⟨"system", some "Unable to send audio. Connection is closed.", none⟩]

/-- Message-list effect of one local event. -/
def applyLocalEvent (s : UiState) (e : LocalUiEvent) : UiState :=
  { s with messages := s.messages ++ localEventMsgs e }

/-- Roles the UI renders: every entry is created with one of these. -/
def validRole (r : String) : Bool := r = "system" || r = "user" || r = "assistant"

/-- Claimed per-entry invariant: a known role and a present text or
audio field. -/
def msgWellFormed (m : Msg) : Bool := validRole m.role && (m.text.isSome || m.audio.isSome)

/-- Claimed invariant of the whole message list. -/
def messagesInv (msgs : List Msg) : Bool := msgs.all msgWellFormed

/-- Field-completeness of one content item: a text item carries a text
field and an audio item carries an audio field. -/
def contentItemOk (ci : Json) : Bool :=
  match getField ci "type" with
  | some (Json.str t) =>
    if t = "text" then (getField ci "text").isSome
    else if t = "audio" then (getField ci "audio").isSome
    else true
  | _ => true

/-- Field-completeness of the content of a created conversation item. -/
def itemContentOk : Option Json → Bool
  | some it =>
    match getField it "content" with
    | some (Json.arr content) => content.all contentItemOk
    | _ => true
  | none => true

/-- Field-completeness of a server event: the fields its handler stores
into the message list are present. -/
def serverEventOk (data : Json) : Bool :=
  match getField data "type" with
  | some (Json.str t) =>
    if t = "response.audio_transcript.done" then (getField data "transcript").isSome
    else if t = "conversation.item.created" then itemContentOk (getField data "item")
    else true
  | _ => true

/-- The last element of a list is a member. -/
theorem mem_of_getLast?_eq {l : List Msg} {a : Msg} (h : l.getLast? = some a) : a ∈ l := by
  have hmem : a ∈ l.getLast? := by rw [h]; rfl
  have h2 := List.dropLast_append_getLast? a hmem
  rw [← h2]
  exact List.mem_append_right _ (by simp)

/-- The invariant distributes over append. -/
theorem messagesInv_append (a b : List Msg) :
    messagesInv (a ++ b) = (messagesInv a && messagesInv b) := List.all_append

/-- The invariant is preserved by dropping the last entry. -/
theorem messagesInv_dropLast (msgs : List Msg) (h : messagesInv msgs = true) :
    messagesInv msgs.dropLast = true := by
  rw [messagesInv, List.all_eq_true] at h ⊢
  exact fun x hx => h x (List.dropLast_subset msgs hx)

/-- The delta message update preserves the invariant. -/
theorem pushOrUpdateLast_inv (msgs : List Msg) (c : String) (h : messagesInv msgs = true) :
    messagesInv (pushOrUpdateLast msgs c) = true := by
  rw [pushOrUpdateLast]
  split
  · split
    · rename_i last hlast hcond
      rw [messagesInv_append, Bool.and_eq_true]
      refine ⟨messagesInv_dropLast msgs h, ?_⟩
      have hmem := mem_of_getLast?_eq hlast
      rw [messagesInv, List.all_eq_true] at h
      have hwf := h last hmem
      rw [msgWellFormed, Bool.and_eq_true] at hwf
      simp [messagesInv, msgWellFormed, hwf.1]
    · rw [messagesInv_append, Bool.and_eq_true]
      exact ⟨h, by simp [messagesInv, msgWellFormed, validRole]⟩
  · rw [messagesInv_append, Bool.and_eq_true]
    exact ⟨h, by simp [messagesInv, msgWellFormed, validRole]⟩

/-- The delta message update never shortens the list. -/
theorem pushOrUpdateLast_length (msgs : List Msg) (c : String) :
    msgs.length ≤ (pushOrUpdateLast msgs c).length := by
  rw [pushOrUpdateLast]
  split
  · split
    · rename_i last hlast hcond
      have hne : msgs ≠ [] := by
        intro he
        subst he
        simp at hlast
      have : 1 ≤ msgs.length := List.length_pos.mpr hne
      simp only [List.length_append, List.length_dropLast, List.length_cons, List.length_nil]
      omega
    · simp
  · simp

/-- After the delta message update the last entry is an assistant entry
carrying the combined audio. -/
theorem pushOrUpdateLast_getLast (msgs : List Msg) (c : String) :
    ∃ t, (pushOrUpdateLast msgs c).getLast? = some ⟨"assistant", t, some c⟩ := by
  rw [pushOrUpdateLast]
  split
  · split
    · rename_i last hlast hcond
      refine ⟨last.text, ?_⟩
      rw [List.getLast?_concat]
      have hrole := hcond.1
      congr 1
      cases last
      simp_all
    · exact ⟨none, List.getLast?_concat _⟩
  · exact ⟨none, List.getLast?_concat _⟩

/-- Entries appended for a field-complete content item are well
formed. -/
theorem contentItemMsgs_inv (ci : Json) (h : contentItemOk ci = true) :
    messagesInv (contentItemMsgs ci) = true := by
  rw [contentItemMsgs]
  rw [contentItemOk] at h
  cases hg : getField ci "type" with
  | none => simp [messagesInv]
  | some v =>
    rw [hg] at h
    cases v with
    | null => simp [messagesInv]
    | bool b => cases b <;> simp [messagesInv]
    | num n => simp [messagesInv]
    | arr xs => simp [messagesInv]
    | obj fs => simp [messagesInv]
    | str t =>
      simp only [] at h ⊢
      by_cases ht : t = "text"
      · rw [if_pos ht] at h ⊢
        cases hx : getField ci "text" with
        | none => rw [hx] at h; simp at h
        | some v2 => simp [hx, messagesInv, msgWellFormed, validRole]
      · rw [if_neg ht] at h ⊢
        by_cases ha : t = "audio"
        · rw [if_pos ha] at h ⊢
          cases hx : getField ci "audio" with
          | none => rw [hx] at h; simp at h
          | some v2 => simp [hx, messagesInv, msgWellFormed, validRole]
        · rw [if_neg ha]
          simp [messagesInv]

/-- Entries appended for a field-complete content list are well
formed. -/
theorem contentFold_inv (content : List Json) (h : content.all contentItemOk = true) :
    messagesInv (content.foldr (fun ci acc => contentItemMsgs ci ++ acc) []) = true := by
  induction content with
  | nil => simp [messagesInv]
  | cons ci rest ih =>
    rw [List.all_cons, Bool.and_eq_true] at h
    simp only [List.foldr_cons]
    rw [messagesInv_append, Bool.and_eq_true]
    exact ⟨contentItemMsgs_inv ci h.1, ih h.2⟩

/-- Invariant preservation for conversation.item.created. -/
theorem handleConversationItemCreated_inv (s : UiState) (item : Option Json)
    (hinv : messagesInv s.messages = true) (hok : itemContentOk item = true) :
    messagesInv (handleConversationItemCreated s item).messages = true := by
  rw [handleConversationItemCreated.eq_def]
  split
  · exact hinv
  · rename_i it
    split
    · split
      · rename_i content heq
        rw [itemContentOk] at hok
        rw [heq] at hok
        simp only [] at hok ⊢
        rw [messagesInv_append, Bool.and_eq_true]
        exact ⟨hinv, contentFold_inv content hok⟩
      · exact hinv
    · exact hinv

/-- conversation.item.created never shortens the list. -/
theorem handleConversationItemCreated_length (s : UiState) (item : Option Json) :
    s.messages.length ≤ (handleConversationItemCreated s item).messages.length := by
  rw [handleConversationItemCreated.eq_def]
  split
  · exact le_rfl
  · split
    · split
      · simp
      · exact le_rfl
    · exact le_rfl

/-- Invariant preservation for response.audio.delta. -/
theorem handleResponseAudioDelta_inv (s : UiState) (data : Json)
    (hinv : messagesInv s.messages = true) :
    messagesInv (handleResponseAudioDelta s data).messages = true := by
  rw [handleResponseAudioDelta]
  split
  · split
    · exact pushOrUpdateLast_inv _ _ hinv
    · exact hinv
  · exact hinv

/-- response.audio.delta never shortens the list. -/
theorem handleResponseAudioDelta_length (s : UiState) (data : Json) :
    s.messages.length ≤ (handleResponseAudioDelta s data).messages.length := by
  rw [handleResponseAudioDelta]
  split
  · split
    · exact pushOrUpdateLast_length _ _
    · exact le_rfl
  · exact le_rfl

/-- Invariant preservation for response.audio.done. -/
theorem handleResponseAudioDone_inv (s : UiState) (data : Json)
    (hinv : messagesInv s.messages = true) :
    messagesInv (handleResponseAudioDone s data).messages = true := by
  rw [handleResponseAudioDone]
  rw [messagesInv_append, Bool.and_eq_true]
  exact ⟨hinv, by simp [messagesInv, msgWellFormed, validRole]⟩

/-- Invariant preservation for response.audio_transcript.done when the
transcript field is present. -/
theorem handleResponseAudioTranscriptDone_inv (s : UiState) (data : Json)
    (hinv : messagesInv s.messages = true) (hok : (getField data "transcript").isSome = true) :
    messagesInv (handleResponseAudioTranscriptDone s data).messages = true := by
  rw [handleResponseAudioTranscriptDone]
  simp only []
  rw [messagesInv_append, Bool.and_eq_true]
  refine ⟨hinv, ?_⟩
  cases hx : getField data "transcript" with
  | none => rw [hx] at hok; simp at hok
  | some v => simp [hx, messagesInv, msgWellFormed, validRole]

/-- Invariant preservation for error events. -/
theorem handleErrorEvent_inv (s : UiState) (err : Option Json)
    (hinv : messagesInv s.messages = true) :
    messagesInv (handleErrorEvent s err).messages = true := by
  rw [handleErrorEvent.eq_def]
  split
  · exact hinv
  · simp only []
    rw [messagesInv_append, Bool.and_eq_true]
    exact ⟨hinv, by simp [messagesInv, msgWellFormed, validRole]⟩

/-- C9 counterexample input: a transcript-done event without a
transcript field. -/
def c9CexInput : String := "\x7b\"type\":\"response.audio_transcript.done\"\x7d"

/-- C9: the claim fails as stated: processing a
response.audio_transcript.done event without a transcript field appends
an assistant entry with neither text nor audio, violating the claimed
invariant. -/
theorem C9_counterexample :
    (processServerMessage ⟨[], []⟩ c9CexInput).messages = [⟨"assistant", none, none⟩] ∧
    messagesInv [⟨"assistant", none, none⟩] = false := by
  constructor
  · rfl
  · rfl

/-- Role-only invariant: every entry carries one of the rendered
roles. -/
def rolesInv (msgs : List Msg) : Bool := msgs.all (fun m => validRole m.role)

/-- The role invariant distributes over append. -/
theorem rolesInv_append (a b : List Msg) :
    rolesInv (a ++ b) = (rolesInv a && rolesInv b) := List.all_append

/-- The role invariant is preserved by dropping the last entry. -/
theorem rolesInv_dropLast (msgs : List Msg) (h : rolesInv msgs = true) :
    rolesInv msgs.dropLast = true := by
  rw [rolesInv, List.all_eq_true] at h ⊢
  exact fun x hx => h x (List.dropLast_subset msgs hx)

/-- The delta message update preserves the role invariant, with no
condition on the event. -/
theorem pushOrUpdateLast_roles (msgs : List Msg) (c : String) (h : rolesInv msgs = true) :
    rolesInv (pushOrUpdateLast msgs c) = true := by
  rw [pushOrUpdateLast]
  split
  · split
    · rename_i last hlast hcond
      rw [rolesInv_append, Bool.and_eq_true]
      refine ⟨rolesInv_dropLast msgs h, ?_⟩
      have hmem := mem_of_getLast?_eq hlast
      rw [rolesInv, List.all_eq_true] at h
      have hwf := h last hmem
      simp [rolesInv, hwf]
    · rw [rolesInv_append, Bool.and_eq_true]
      exact ⟨h, by simp [rolesInv, validRole]⟩
  · rw [rolesInv_append, Bool.and_eq_true]
    exact ⟨h, by simp [rolesInv, validRole]⟩

/-- Entries appended for any content item carry valid roles, with no
condition on the item. -/
theorem contentItemMsgs_roles (ci : Json) : rolesInv (contentItemMsgs ci) = true := by
  rw [contentItemMsgs]
  split
  · split
    · simp [rolesInv, validRole]
    · split
      · simp [rolesInv, validRole]
      · simp [rolesInv]
  · simp [rolesInv]

/-- Entries appended for any content list carry valid roles. -/
theorem contentFold_roles (content : List Json) :
    rolesInv (content.foldr (fun ci acc => contentItemMsgs ci ++ acc) []) = true := by
  induction content with
  | nil => simp [rolesInv]
  | cons ci rest ih =>
    simp only [List.foldr_cons]
    rw [rolesInv_append, Bool.and_eq_true]
    exact ⟨contentItemMsgs_roles ci, ih⟩

/-- Role preservation for conversation.item.created, with no condition
on the event. -/
theorem handleConversationItemCreated_roles (s : UiState) (item : Option Json)
    (h : rolesInv s.messages = true) :
    rolesInv (handleConversationItemCreated s item).messages = true := by
  rw [handleConversationItemCreated.eq_def]
  split
  · exact h
  · split
    · split
      · rename_i content heq
        simp only []
        rw [rolesInv_append, Bool.and_eq_true]
        exact ⟨h, contentFold_roles content⟩
      · exact h
    · exact h

/-- Role preservation for response.audio.delta, with no condition on
the event. -/
theorem handleResponseAudioDelta_roles (s : UiState) (data : Json)
    (h : rolesInv s.messages = true) :
    rolesInv (handleResponseAudioDelta s data).messages = true := by
  rw [handleResponseAudioDelta]
  split
  · split
    · exact pushOrUpdateLast_roles _ _ h
    · exact h
  · exact h

/-- Role preservation for response.audio.done. -/
theorem handleResponseAudioDone_roles (s : UiState) (data : Json)
    (h : rolesInv s.messages = true) :
    rolesInv (handleResponseAudioDone s data).messages = true := by
  rw [handleResponseAudioDone]
  rw [rolesInv_append, Bool.and_eq_true]
  exact ⟨h, by simp [rolesInv, validRole]⟩

/-- Role preservation for response.audio_transcript.done, with no
condition on the event: the appended entry always has role assistant,
even when the transcript field is absent. -/
theorem handleResponseAudioTranscriptDone_roles (s : UiState) (data : Json)
    (h : rolesInv s.messages = true) :
    rolesInv (handleResponseAudioTranscriptDone s data).messages = true := by
  rw [handleResponseAudioTranscriptDone]
  simp only []
  rw [rolesInv_append, Bool.and_eq_true]
  exact ⟨h, by simp [rolesInv, validRole]⟩

/-- Role preservation for error events. -/
theorem handleErrorEvent_roles (s : UiState) (err : Option Json)
    (h : rolesInv s.messages = true) :
    rolesInv (handleErrorEvent s err).messages = true := by
  rw [handleErrorEvent.eq_def]
  split
  · exact h
  · simp only []
    rw [rolesInv_append, Bool.and_eq_true]
    exact ⟨h, by simp [rolesInv, validRole]⟩

/-- C9 (amended): each entry has a text or an audio field provided each
processed server event carries the fields its handler stores (a string
transcript for transcript-done and text/audio fields on created content
items); the list length never decreases and every entry role is system,
user or assistant, both unconditionally, under every server event and
every local handler. -/
theorem C9_messages_invariant :
    (∀ (s : UiState) (dataStr : String),
      messagesInv s.messages = true →
      (∀ j, parseJson dataStr = some j → serverEventOk j = true) →
      messagesInv (processServerMessage s dataStr).messages = true) ∧
    (∀ (s : UiState) (dataStr : String),
      s.messages.length ≤ (processServerMessage s dataStr).messages.length) ∧
    (∀ (s : UiState) (e : LocalUiEvent),
      messagesInv s.messages = true → messagesInv (applyLocalEvent s e).messages = true) ∧
    (∀ (s : UiState) (e : LocalUiEvent),
      s.messages.length ≤ (applyLocalEvent s e).messages.length) ∧
    (∀ (s : UiState) (dataStr : String),
      rolesInv s.messages = true → rolesInv (processServerMessage s dataStr).messages = true) ∧
    (∀ (s : UiState) (e : LocalUiEvent),
      rolesInv s.messages = true → rolesInv (applyLocalEvent s e).messages = true) := by
  refine ⟨?_, ?_, ?_, ?_, ?_, ?_⟩
  · intro s dataStr hinv hok
    unfold processServerMessage
    split
    · exact hinv
    · rename_i data hp
      have hok2 := hok data hp
      split
      · rename_i t hgt
        rw [serverEventOk, hgt] at hok2
        simp only [] at hok2
        by_cases h1 : t = "conversation.item.created"
        · rw [if_pos h1]
          subst h1
          rw [if_neg (by decide), if_pos rfl] at hok2
          exact handleConversationItemCreated_inv s _ hinv hok2
        · rw [if_neg h1]
          by_cases h2 : t = "response.audio.delta"
          · rw [if_pos h2]
            exact handleResponseAudioDelta_inv s data hinv
          · rw [if_neg h2]
            by_cases h3 : t = "response.audio.done"
            · rw [if_pos h3]
              exact handleResponseAudioDone_inv s data hinv
            · rw [if_neg h3]
              by_cases h4 : t = "response.audio_transcript.done"
              · rw [if_pos h4]
                subst h4
                rw [if_pos rfl] at hok2
                exact handleResponseAudioTranscriptDone_inv s data hinv hok2
              · rw [if_neg h4]
                by_cases h5 : t = "error"
                · rw [if_pos h5]
                  exact handleErrorEvent_inv s _ hinv
                · rw [if_neg h5]
                  exact hinv
      · exact hinv
  · intro s dataStr
    unfold processServerMessage
    split
    · exact le_rfl
    · rename_i data hp
      split
      · rename_i t hgt
        by_cases h1 : t = "conversation.item.created"
        · rw [if_pos h1]
          exact handleConversationItemCreated_length s _
        · rw [if_neg h1]
          by_cases h2 : t = "response.audio.delta"
          · rw [if_pos h2]
            exact handleResponseAudioDelta_length s data
          · rw [if_neg h2]
            by_cases h3 : t = "response.audio.done"
            · rw [if_pos h3]
              rw [handleResponseAudioDone]
              simp
            · rw [if_neg h3]
              by_cases h4 : t = "response.audio_transcript.done"
              · rw [if_pos h4]
                rw [handleResponseAudioTranscriptDone]
                simp
              · rw [if_neg h4]
                by_cases h5 : t = "error"
                · rw [if_pos h5]
                  rw [handleErrorEvent.eq_def]
                  split
                  · exact le_rfl
                  · simp
                · rw [if_neg h5]
      · exact le_rfl
  · intro s e hinv
    rw [applyLocalEvent]
    simp only []
    rw [messagesInv_append, Bool.and_eq_true]
    refine ⟨hinv, ?_⟩
    cases e with
    | audioProcessed p w =>
      cases p with
      | none => simp [localEventMsgs, messagesInv, msgWellFormed, validRole]
      | some b => cases w <;> simp [localEventMsgs, messagesInv, msgWellFormed, validRole]
    | _ => simp [localEventMsgs, messagesInv, msgWellFormed, validRole]
  · intro s e
    rw [applyLocalEvent]
    simp
  · intro s dataStr hroles
    unfold processServerMessage
    split
    · exact hroles
    · rename_i data hp
      split
      · rename_i t hgt
        by_cases h1 : t = "conversation.item.created"
        · rw [if_pos h1]
          exact handleConversationItemCreated_roles s _ hroles
        · rw [if_neg h1]
          by_cases h2 : t = "response.audio.delta"
          · rw [if_pos h2]
            exact handleResponseAudioDelta_roles s data hroles
          · rw [if_neg h2]
            by_cases h3 : t = "response.audio.done"
            · rw [if_pos h3]
              exact handleResponseAudioDone_roles s data hroles
            · rw [if_neg h3]
              by_cases h4 : t = "response.audio_transcript.done"
              · rw [if_pos h4]
                exact handleResponseAudioTranscriptDone_roles s data hroles
              · rw [if_neg h4]
                by_cases h5 : t = "error"
                · rw [if_pos h5]
                  exact handleErrorEvent_roles s _ hroles
                · rw [if_neg h5]
                  exact hroles
      · exact hroles
  · intro s e hroles
    rw [applyLocalEvent]
    simp only []
    rw [rolesInv_append, Bool.and_eq_true]
    refine ⟨hroles, ?_⟩
    cases e with
    | audioProcessed p w =>
      cases p with
      | none => simp [localEventMsgs, rolesInv, validRole]
      | some b => cases w <;> simp [localEventMsgs, rolesInv, validRole]
    | _ => simp [localEventMsgs, rolesInv, validRole]

/-- Concrete well-formed transcript-done event. -/
def c9WitnessInput : String :=
  "\x7b\"type\":\"response.audio_transcript.done\",\"transcript\":\"hi\"\x7d"

/-- Witness for C9 (amended): the field-presence conjunct at a concrete
state and a concrete transcript-done event carrying its transcript, and
the unconditional role conjunct at the field-incomplete event of the
counterexample. -/
theorem C9_messages_invariant_witness :
    messagesInv (processServerMessage ⟨[⟨"system", some "Connected to assistant.", none⟩], []⟩
      c9WitnessInput).messages = true ∧
    rolesInv (processServerMessage ⟨[], []⟩ c9CexInput).messages = true := by
  constructor
  · apply C9_messages_invariant.1
    · decide
    · intro j hj
      rw [show parseJson c9WitnessInput =
        some (Json.obj [("type", Json.str "response.audio_transcript.done"),
          ("transcript", Json.str "hi")]) from rfl] at hj
      injection hj with h
      rw [← h]
      rfl
  · apply C9_messages_invariant.2.2.2.2.1
    decide

/-- A response.audio.delta server event carrying an optional
audio_delta field. -/
def mkDeltaEvent : Option String → Json
  | some d => Json.obj [("type", Json.str "response.audio.delta"), ("audio_delta", Json.str d)]
  | none => Json.obj [("type", Json.str "response.audio.delta")]

/-- Processing of a sequence of response.audio.delta events. -/
def deltaFold (s : UiState) (events : List (Option String)) : UiState :=
  events.foldl (fun st e => handleResponseAudioDelta st (mkDeltaEvent e)) s

/-- The non-empty audio_delta fields of a delta event sequence, in
arrival order. -/
def deltaStringsOf (events : List (Option String)) : List String :=
  events.filterMap (fun e => match e with
    | some d => if d = "" then none else some d
    | none => none)

/-- Unfolding one step of delta processing. -/
theorem deltaFold_cons (s : UiState) (e : Option String) (rest : List (Option String)) :
    deltaFold s (e :: rest) = deltaFold (handleResponseAudioDelta s (mkDeltaEvent e)) rest := rfl

/-- A delta event without audio_delta changes nothing. -/
theorem delta_step_none (s : UiState) : handleResponseAudioDelta s (mkDeltaEvent none) = s := rfl

/-- A delta event with an empty audio_delta changes nothing. -/
theorem delta_step_empty (s : UiState) :
    handleResponseAudioDelta s (mkDeltaEvent (some "")) = s := rfl

/-- A delta event with a non-empty audio_delta extends the buffer and
stores the joined buffer in the last assistant message. -/
theorem delta_step_some (s : UiState) (d : String) (hd : d ≠ "") :
    handleResponseAudioDelta s (mkDeltaEvent (some d)) =
      ⟨pushOrUpdateLast s.messages (String.join (s.audioBuffer ++ [d])), s.audioBuffer ++ [d]⟩ := by
  have hg : getField (mkDeltaEvent (some d)) "audio_delta" = some (Json.str d) := rfl
  rw [handleResponseAudioDelta, hg]
  simp only []
  rw [if_pos hd]

/-- The buffer after a delta sequence is the previous buffer followed by
the non-empty deltas. -/
theorem deltaFold_buffer (events : List (Option String)) : ∀ s : UiState,
    (deltaFold s events).audioBuffer = s.audioBuffer ++ deltaStringsOf events := by
  induction events with
  | nil => intro s; simp [deltaFold, deltaStringsOf]
  | cons e rest ih =>
    intro s
    cases e with
    | none =>
      rw [deltaFold_cons, delta_step_none, ih]
      simp [deltaStringsOf]
    | some d =>
      by_cases hd : d = ""
      · subst hd
        rw [deltaFold_cons, delta_step_empty, ih]
        simp [deltaStringsOf]
      · rw [deltaFold_cons, delta_step_some s d hd, ih]
        simp [deltaStringsOf, hd]

/-- After a delta sequence, either no non-empty delta arrived and the
message list is unchanged, or the last entry is an assistant entry whose
audio is the join of the buffer and all non-empty deltas. -/
theorem deltaFold_last (events : List (Option String)) : ∀ s : UiState,
    ((deltaFold s events).messages = s.messages ∧ deltaStringsOf events = []) ∨
    ((∃ t, (deltaFold s events).messages.getLast? =
        some ⟨"assistant", t, some (String.join (s.audioBuffer ++ deltaStringsOf events))⟩) ∧
      deltaStringsOf events ≠ []) := by
  induction events with
  | nil => intro s; left; exact ⟨rfl, rfl⟩
  | cons e rest ih =>
    intro s
    cases e with
    | none =>
      rw [deltaFold_cons, delta_step_none]
      have hds : deltaStringsOf (none :: rest) = deltaStringsOf rest := by simp [deltaStringsOf]
      rw [hds]
      exact ih s
    | some d =>
      by_cases hd : d = ""
      · subst hd
        rw [deltaFold_cons, delta_step_empty]
        have hds : deltaStringsOf (some "" :: rest) = deltaStringsOf rest := by
          simp [deltaStringsOf]
        rw [hds]
        exact ih s
      · rw [deltaFold_cons, delta_step_some s d hd]
        have hds : deltaStringsOf (some d :: rest) = d :: deltaStringsOf rest := by
          simp [deltaStringsOf, hd]
        rw [hds]
        right
        constructor
        · set s1 : UiState :=
            ⟨pushOrUpdateLast s.messages (String.join (s.audioBuffer ++ [d])), s.audioBuffer ++ [d]⟩ with hs1
          rcases ih s1 with ⟨hmsg, hrest⟩ | ⟨⟨t, hlast⟩, hrest⟩
          · rw [hmsg, hrest]
            have := pushOrUpdateLast_getLast s.messages (String.join (s.audioBuffer ++ [d]))
            simpa using this
          · refine ⟨t, ?_⟩
            rw [hlast]
            have : s1.audioBuffer ++ deltaStringsOf rest = s.audioBuffer ++ d :: deltaStringsOf rest := by
              rw [hs1]
              simp
            rw [this]
        · simp

/-- C10: starting from an empty delta buffer, after any sequence of
response.audio.delta events the buffer holds exactly the non-empty
audio_delta fields in arrival order, and when there was at least one the
last message is an assistant message whose audio is their concatenation;
processing response.audio.done resets the buffer to empty. -/
theorem C10_delta_accumulation (s : UiState) (hbuf : s.audioBuffer = [])
    (events : List (Option String)) :
    (deltaFold s events).audioBuffer = deltaStringsOf events ∧
    (deltaStringsOf events ≠ [] →
      ∃ t, (deltaFold s events).messages.getLast? =
        some ⟨"assistant", t, some (String.join (deltaStringsOf events))⟩) ∧
    (∀ (u : UiState) (d : Json), (handleResponseAudioDone u d).audioBuffer = []) := by
  refine ⟨?_, ?_, fun u d => rfl⟩
  · rw [deltaFold_buffer, hbuf]
    simp
  · intro hne
    rcases deltaFold_last events s with ⟨_, h⟩ | ⟨⟨t, hlast⟩, _⟩
    · exact absurd h hne
    · refine ⟨t, ?_⟩
      rw [hlast, hbuf]
      simp

/-- Witness for C10 at a concrete delta sequence with an absent and an
empty delta interleaved. -/
theorem C10_delta_accumulation_witness :
    (deltaFold ⟨[], []⟩ [some "QUJD", none, some "", some "QkM="]).audioBuffer =
      ["QUJD", "QkM="] ∧
    ∃ t, (deltaFold ⟨[], []⟩ [some "QUJD", none, some "", some "QkM="]).messages.getLast? =
      some ⟨"assistant", t, some "QUJDQkM="⟩ := by
  have h := C10_delta_accumulation ⟨[], []⟩ rfl [some "QUJD", none, some "", some "QkM="]
  refine ⟨h.1.trans (by decide), ?_⟩
  obtain ⟨t, ht⟩ := h.2.1 (by decide)
  exact ⟨t, by rw [ht]; rfl⟩
